import Mathlib

/-!
Shallow embedding of the video-latency analyzer's temporal-alignment and
anomaly-detection core (`src/core/time_detector.py`, `src/core/roi_tracker.py`,
`src/core/anomaly_detector.py`, `src/core/network_matcher.py`, and the
per-frame classification logic of `src/gui/worker.py`), together with
theorems settling the specification claims about it.

Strings are modelled as `List Char`, Python floats/ints appearing in time
arithmetic as `ℚ` (all values reached by the claims are exactly
representable), and each Python method as a pure function on an explicit
state structure.
-/

namespace VLA

/-! ## Character / digit helpers shared by the parsers -/

/-- Numeric value of a digit character (`int` of a one-character digit string). -/
def dv (c : Char) : ℕ := c.toNat - 48

/-- The character for a decimal digit `n < 10` (as produced by Python's
`"%02d"`-style formatting). -/
def digitCharOf (n : ℕ) : Char := Char.ofNat (48 + n)

/-- Two-character zero-padded rendering of `n < 100` (Python `f"{n:02d}"`). -/
def pad2 (n : ℕ) : List Char := [digitCharOf (n / 10), digitCharOf (n % 10)]

/-- Value of a two-digit group (`int(num[i:i+2])` on digit characters). -/
def dv2 (c1 c2 : Char) : ℕ := 10 * dv c1 + dv c2

/-! ## `time_detector.parse_time_format_digits` -/

/-- Helper for maximal digit-run extraction (`re.findall(r'\d+', text)`):
`acc` is the reversed current run. -/
def digitRunsAux : List Char → List Char → List (List Char)
  | [], acc => if acc.isEmpty then [] else [acc.reverse]
  | c :: rest, acc =>
    if c.isDigit then digitRunsAux rest (c :: acc)
    else if acc.isEmpty then digitRunsAux rest []
    else acc.reverse :: digitRunsAux rest []

/-- All maximal runs of consecutive digits in a text
(`re.findall(r'\d+', text)`). -/
def digitRuns (cs : List Char) : List (List Char) := digitRunsAux cs []

/-- The canonical output string `f"{h:02d}:{m:02d}:{s:02d}.{ms}"` where the
millisecond part is kept as the three matched characters. -/
def canonicalOf (h m s : ℕ) (ms : List Char) : List Char :=
  pad2 h ++ ':' :: pad2 m ++ ':' :: pad2 s ++ '.' :: ms

/-- One iteration of the loop body of `parse_time_format_digits`: a run of
exactly 6 digits parses as `HHMMSS` with `.000`, a run of 9 or more digits
parses as `HHMMSS` + first three remaining digits as milliseconds; any other
length (in particular 7 and 8) is skipped.  Field ranges are validated, an
out-of-range run yields nothing (the loop `continue`s). -/
def parseDigitRun (r : List Char) : Option (List Char) :=
  if r.length = 6 then
    let h := dv2 (r.getD 0 '0') (r.getD 1 '0')
    let m := dv2 (r.getD 2 '0') (r.getD 3 '0')
    let s := dv2 (r.getD 4 '0') (r.getD 5 '0')
    if h ≤ 23 ∧ m ≤ 59 ∧ s ≤ 59 then
      some (canonicalOf h m s ['0', '0', '0'])
    else none
  else if 9 ≤ r.length then
    let h := dv2 (r.getD 0 '0') (r.getD 1 '0')
    let m := dv2 (r.getD 2 '0') (r.getD 3 '0')
    let s := dv2 (r.getD 4 '0') (r.getD 5 '0')
    if h ≤ 23 ∧ m ≤ 59 ∧ s ≤ 59 then
      some (canonicalOf h m s [r.getD 6 '0', r.getD 7 '0', r.getD 8 '0'])
    else none
  else none

/-- Function `parse_time_format_digits(text)`: try every maximal digit run in order and
return the first successful parse. -/
def parse_time_format_digits (cs : List Char) : Option (List Char) :=
  (digitRuns cs).findSome? parseDigitRun

/-! ## `time_detector.parse_time_format_colon`

The regex `(\d{2}):(\d{2}):(\d{2})(?:[.:](\d{3}))?(?![.:\d])` is embedded as
an explicit matcher: at a given start position the mandatory part must match,
then the optional millisecond group is tried greedily, backtracking to the
group-less alternative, and in either case the negative lookahead (next
character is none of `.`, `:`, digit) must hold.  `re.search` takes the
leftmost start position at which the whole pattern matches. -/

/-- The negative lookahead `(?![.:\d])`. -/
def lookaheadOK : List Char → Bool
  | [] => true
  | c :: _ => !(c = '.' || c = ':' || c.isDigit)

/-- Groups of a colon-pattern match: the six mandatory digit characters and
optionally the three millisecond digit characters. -/
def matchColonAt (cs : List Char) :
    Option (Char × Char × Char × Char × Char × Char × Option (Char × Char × Char)) :=
  match cs with
  | d1 :: d2 :: c1 :: d3 :: d4 :: c2 :: d5 :: d6 :: rest =>
    if d1.isDigit && d2.isDigit && c1 = ':' && d3.isDigit && d4.isDigit &&
        c2 = ':' && d5.isDigit && d6.isDigit then
      match rest with
      | sep :: e1 :: e2 :: e3 :: rest2 =>
        if (sep = '.' || sep = ':') && e1.isDigit && e2.isDigit && e3.isDigit &&
            lookaheadOK rest2 then
          some (d1, d2, d3, d4, d5, d6, some (e1, e2, e3))
        else if lookaheadOK rest then some (d1, d2, d3, d4, d5, d6, none)
        else none
      | _ => if lookaheadOK rest then some (d1, d2, d3, d4, d5, d6, none) else none
    else none
  | _ => none

/-- Search (`re.search`) over the colon pattern: first start position with a match. -/
def searchColon : List Char →
    Option (Char × Char × Char × Char × Char × Char × Option (Char × Char × Char))
  | [] => none
  | c :: rest =>
    match matchColonAt (c :: rest) with
    | some g => some g
    | none => searchColon rest

/-- Function `parse_time_format_colon(text)`: search the colon pattern, validate field
ranges (`0 ≤ h ≤ 23`, `0 ≤ m ≤ 59`, `0 ≤ s ≤ 59`), default missing
milliseconds to `000`, and format the canonical string. -/
def parse_time_format_colon (cs : List Char) : Option (List Char) :=
  match searchColon cs with
  | none => none
  | some (d1, d2, d3, d4, d5, d6, msOpt) =>
    let h := dv2 d1 d2
    let m := dv2 d3 d4
    let s := dv2 d5 d6
    if h ≤ 23 ∧ m ≤ 59 ∧ s ≤ 59 then
      some (canonicalOf h m s
        (match msOpt with
         | some (e1, e2, e3) => [e1, e2, e3]
         | none => ['0', '0', '0']))
    else none

/-! ## `time_detector.parse_time_to_ms` -/

/-- Python `str.split(sep)` for a one-character separator. -/
def pySplit (sep : Char) : List Char → List (List Char)
  | [] => [[]]
  | c :: rest =>
    let r := pySplit sep rest
    if c = sep then [] :: r
    else
      match r with
      | h :: t => (c :: h) :: t
      | [] => [[c]]

/-- Value of a nonempty all-digit string, `none` otherwise. -/
def digitsVal? (cs : List Char) : Option ℕ :=
  if !cs.isEmpty && cs.all Char.isDigit then
    some (cs.foldl (fun a c => 10 * a + dv c) 0)
  else none

/-- Python `int(str)` restricted to an optional sign followed by digits;
failure (`ValueError`) is `none`. -/
def pyInt (cs : List Char) : Option ℤ :=
  match cs with
  | [] => none
  | c :: r =>
    if c = '+' then (digitsVal? r).map (fun n => (n : ℤ))
    else if c = '-' then (digitsVal? r).map (fun n => -(n : ℤ))
    else (digitsVal? (c :: r)).map (fun n => (n : ℤ))

/-- Function `parse_time_to_ms(time_str)`: split on `:` (exactly three parts), split
the last part on `.` for the optional milliseconds, and compute
`((h*3600 + m*60 + s) * 1000) + ms`; any conversion failure yields `none`. -/
def parse_time_to_ms (cs : List Char) : Option ℤ :=
  if cs.isEmpty then none
  else
    let parts := pySplit ':' cs
    if parts.length ≠ 3 then none
    else
      match pyInt (parts.getD 0 []), pyInt (parts.getD 1 []) with
      | some h, some m =>
        let sms := pySplit '.' (parts.getD 2 [])
        match pyInt (sms.getD 0 []) with
        | some s =>
          match (if sms.length > 1 then pyInt (sms.getD 1 []) else some 0) with
          | some ms => some ((h * 3600 + m * 60 + s) * 1000 + ms)
          | none => none
        | none => none
      | _, _ => none

/-! ## `roi_tracker.ROITracker` -/

/-- The tracker's mutable state (`ROITracker.__init__`). -/
structure ROITracker where
  roi : Option (ℤ × ℤ × ℤ × ℤ)
  roi_confidence : ℚ
  consecutive_fails : ℕ
  last_success_frame : ℤ
  total_uses : ℕ
  success_count : ℕ
deriving DecidableEq

namespace ROITracker

/-- Freshly constructed tracker. -/
def init : ROITracker :=
  { roi := none, roi_confidence := 0, consecutive_fails := 0,
    last_success_frame := -1, total_uses := 0, success_count := 0 }

/-- Method `ROITracker.has_valid_roi(current_frame_idx)`. -/
def has_valid_roi (t : ROITracker) (currentFrameIdx : ℤ) : Bool :=
  match t.roi with
  | none => false
  | some _ =>
    if t.consecutive_fails ≥ 3 then false
    else if currentFrameIdx - t.last_success_frame > 100 then false
    else if t.roi_confidence < 1/2 then false
    else true

/-- Method `ROITracker.reset()`: clear the tracking fields only. -/
def reset (t : ROITracker) : ROITracker :=
  { t with roi := none, roi_confidence := 0, consecutive_fails := 0,
           last_success_frame := -1 }

/-- Method `ROITracker.update_roi(roi, frame_idx, success)`. -/
def update_roi (t : ROITracker) (roi : ℤ × ℤ × ℤ × ℤ) (frameIdx : ℤ)
    (success : Bool) : ROITracker :=
  let t := { t with total_uses := t.total_uses + 1 }
  if success then
    let t := { t with roi := some roi, last_success_frame := frameIdx,
                      consecutive_fails := 0, success_count := t.success_count + 1 }
    if t.roi_confidence < 3/5 then
      { t with roi_confidence := min 1 (t.roi_confidence + 1/10) }
    else
      { t with roi_confidence := min 1 (t.roi_confidence + 1/20) }
  else
    let t := { t with consecutive_fails := t.consecutive_fails + 1 }
    let t := { t with roi_confidence := max 0 (t.roi_confidence - 1/10) }
    if t.consecutive_fails ≥ 3 ∨ t.roi_confidence < 3/10 then t.reset else t

/-- Method `ROITracker.establish_roi(roi, frame_idx)`. -/
def establish_roi (t : ROITracker) (roi : ℤ × ℤ × ℤ × ℤ) (frameIdx : ℤ) :
    ROITracker :=
  { t with roi := some roi, roi_confidence := 1/2, consecutive_fails := 0,
           last_success_frame := frameIdx, total_uses := 1, success_count := 1 }

end ROITracker

/-- The dictionary returned by `ROITracker.get_stats()`. -/
structure ROIStats where
  has_roi : Bool
  confidence : ℚ
  consecutive_fails : ℕ
  total_uses : ℕ
  success_count : ℕ
  success_rate : ℚ
  last_success_frame : ℤ
deriving DecidableEq

/-- Method `ROITracker.get_stats()`. -/
def ROITracker.get_stats (t : ROITracker) : ROIStats :=
  { has_roi := t.roi.isSome
    confidence := t.roi_confidence
    consecutive_fails := t.consecutive_fails
    total_uses := t.total_uses
    success_count := t.success_count
    success_rate :=
      if t.total_uses > 0 then (t.success_count : ℚ) / t.total_uses * 100 else 0
    last_success_frame := t.last_success_frame }

/-! ## `anomaly_detector.AnomalyDetector` -/

/-- Reasons recorded in `error_reason` / detector messages.  The Python code
builds formatted strings; only their identity matters here. -/
inductive Reason where
  | empty
  | appFailMsg
  | realFailMsg
  | hardCapExceeded
  | physicalLimit
  | negativeLimit
  | clockDesync
  | recheckCorrected
  | timeRegression (prevIdx : ℕ)
  | statOutlier
deriving DecidableEq

/-- Frame statuses written to the per-frame record. -/
inductive Status where
  | ok
  | okRechecked
  | appFail
  | realFail
  | bothFail
  | wrong
deriving DecidableEq

/-- Detector state (`AnomalyDetector.__init__`). -/
structure ADState where
  hard_delay_max_ms : ℚ
  last_app_time_ms : Option ℚ
  last_real_time_ms : Option ℚ
  normal_delays : List ℚ
  normal_frames : List (ℕ × ℚ × ℚ)
  current_frame_idx : ℕ
deriving DecidableEq

namespace ADState

/-- A freshly constructed detector with hard cap `cap`. -/
def init (cap : ℚ) : ADState :=
  { hard_delay_max_ms := cap, last_app_time_ms := none, last_real_time_ms := none,
    normal_delays := [], normal_frames := [], current_frame_idx := 0 }

end ADState

/-- Method `AnomalyDetector.check_detector_a(frame_idx, app_time_ms, real_time_ms,
delay_ms)`: hard cap first, then physical limits, then (when a previous
accepted pair exists) the jump-consistency check, whose violation requests a
recheck.  Returns `(is_normal, reason, needs_recheck)`. -/
def check_detector_a (s : ADState) (appTimeMs realTimeMs delayMs : ℚ) :
    Bool × Option Reason × Bool :=
  if delayMs > s.hard_delay_max_ms then (false, some .hardCapExceeded, false)
  else if |delayMs| > 10000 then (false, some .physicalLimit, false)
  else if delayMs < -5000 then (false, some .negativeLimit, false)
  else
    match s.last_app_time_ms, s.last_real_time_ms with
    | some lastApp, some lastReal =>
      let deltaApp := appTimeMs - lastApp
      let deltaReal := realTimeMs - lastReal
      let threshold := max 500 (|deltaApp| * 2)
      if |deltaApp - deltaReal| > threshold then (false, some .clockDesync, true)
      else (true, none, false)
    | _, _ => (true, none, false)

/-- Dictionary lookup `self.normal_frames[k]` (keys are unique). -/
def nfLookup (nf : List (ℕ × ℚ × ℚ)) (k : ℕ) : Option (ℚ × ℚ) :=
  (nf.find? (fun p => p.1 = k)).map (fun p => p.2)

/-- The `real_time` stored for key `k`. -/
def realTimeOf (nf : List (ℕ × ℚ × ℚ)) (k : ℕ) : ℚ :=
  ((nfLookup nf k).getD (0, 0)).2

/-- Method `AnomalyDetector.check_detector_b(frame_idx, real_time_ms)`: collect the
keys of `normal_frames` strictly below `frame_idx`, sort them descending, keep
the first two, and reject on the first one whose stored `real_time` exceeds
the candidate by more than the 1000 ms tolerance. -/
def check_detector_b (nf : List (ℕ × ℚ × ℚ)) (frameIdx : ℕ) (realTimeMs : ℚ) :
    Bool × Option Reason :=
  let prevFrames :=
    (((nf.map Prod.fst).filter (fun k => k < frameIdx)).insertionSort (· ≥ ·)).take 2
  match prevFrames.find? (fun k => realTimeMs < realTimeOf nf k - 1000) with
  | some k => (false, some (.timeRegression k))
  | none => (true, none)

/-- Dictionary write `self.normal_frames[frame_idx] = {...}`: replace in place
if the key exists, else append (insertion order preserved). -/
def nfInsert (nf : List (ℕ × ℚ × ℚ)) (k : ℕ) (v : ℚ × ℚ) : List (ℕ × ℚ × ℚ) :=
  if nf.any (fun p => p.1 = k) then
    nf.map (fun p => if p.1 = k then (k, v.1, v.2) else p)
  else nf ++ [(k, v.1, v.2)]

/-- Method `AnomalyDetector.add_normal_frame(frame_idx, app_time_ms, real_time_ms)`:
store the pair, then evict the entry with the smallest key once more than 100
entries are held. -/
def add_normal_frame (nf : List (ℕ × ℚ × ℚ)) (frameIdx : ℕ) (appTimeMs realTimeMs : ℚ) :
    List (ℕ × ℚ × ℚ) :=
  let nf := nfInsert nf frameIdx (appTimeMs, realTimeMs)
  if nf.length > 100 then
    let oldest := ((nf.map Prod.fst).foldl min (nf.headD (0, 0, 0)).1)
    nf.eraseP (fun p => p.1 = oldest)
  else nf

/-- Method `AnomalyDetector.update_frame(frame_idx, app_time_ms, real_time_ms)`
(called only after a frame clears the checks). -/
def update_frame (s : ADState) (frameIdx : ℕ) (appTimeMs realTimeMs : ℚ) : ADState :=
  { s with last_app_time_ms := some appTimeMs
           last_real_time_ms := some realTimeMs
           current_frame_idx := frameIdx
           normal_frames := add_normal_frame s.normal_frames frameIdx appTimeMs realTimeMs }

/-- Method `AnomalyDetector.add_normal_delay(delay_ms)`: append, keeping only the
last 500 values. -/
def add_normal_delay (ds : List ℚ) (delayMs : ℚ) : List ℚ :=
  let ds := ds ++ [delayMs]
  if ds.length > 500 then ds.drop (ds.length - 500) else ds

/-- Python `statistics.median`: sort ascending; middle element for odd length, mean
of the two middle elements for even length. -/
def median (l : List ℚ) : ℚ :=
  let s := l.insertionSort (· ≤ ·)
  let n := s.length
  if n % 2 = 1 then s.getD (n / 2) 0
  else (s.getD (n / 2 - 1) 0 + s.getD (n / 2) 0) / 2

/-- Method `AnomalyDetector.check_statistical(delay_ms)`: with at least 30 stored
normal delays, compute the median, the MAD floored at `0.01`, and the modified
z-score `0.6745·(x − median)/MAD`; abnormal iff `|z| > 5`. -/
def check_statistical (ds : List ℚ) (delayMs : ℚ) : Bool × Option Reason × Option ℚ :=
  if ds.length < 30 then (true, none, none)
  else
    let med := median ds
    let mad := median (ds.map (fun d => |d - med|))
    let mad := if mad < 1/100 then 1/100 else mad
    let z := (6745/10000) * (delayMs - med) / mad
    if |z| > 5 then (false, some .statOutlier, some z) else (true, none, some z)

/-! ## Per-frame classification (`AnalysisWorker.analyze_video`, the status
logic between computing `app_time_ms`/`real_time_ms` and appending the
result record).

The second recognition attempt performed when Detector A requests a recheck
is an external call; its parsed outcome is passed in as the oracle argument
`recheckValue` (`none` = the reattempt produced no parseable value), consumed
only when the recheck branch is taken. -/

/-- One per-frame record as collected into `results`. -/
structure FrameResult where
  frameIdx : ℕ
  appTimeMs : Option ℚ
  realTimeMs : Option ℚ
  delayMs : Option ℚ
  status : Status
  errorReason : Reason
deriving DecidableEq

/-- Worker configuration `src/config.py`, `ANOMALY_DETECTION['hard_delay_max_ms']`. -/
def ANOMALY_DETECTION_hard_delay_max_ms : ℚ := 10000

/-- The value `ANOMALY_DETECTION.get('hard_delay_max_ms', 10000)` as read in
`AnalysisWorker.run`. -/
def workerHardDelayMaxMs : ℚ := ANOMALY_DETECTION_hard_delay_max_ms

/-- The detector as constructed by the worker. -/
def workerADInit : ADState := ADState.init workerHardDelayMaxMs

/-- The Detector-B block guarding the end of the accept path: run
`check_detector_b`; on failure downgrade to `wrong`, on success record the
frame via `update_frame` and keep the incoming status/reason. -/
def detectorBPhase (s : ADState) (frameIdx : ℕ) (appMs realMs delayMs : ℚ)
    (st : Status) (reason : Reason) : FrameResult × ADState :=
  let chk := check_detector_b s.normal_frames frameIdx realMs
  if chk.1 then
    ({ frameIdx := frameIdx, appTimeMs := some appMs, realTimeMs := some realMs,
       delayMs := some delayMs, status := st, errorReason := reason },
     update_frame s frameIdx appMs realMs)
  else
    ({ frameIdx := frameIdx, appTimeMs := some appMs, realTimeMs := some realMs,
       delayMs := some delayMs, status := .wrong,
       errorReason := chk.2.getD .empty }, s)

/-- The adoption test of the recheck branch: Python's
`if real_time_ms_recheck and real_time_ms_recheck != real_time_ms` (a value
is adopted only when present, truthy — nonzero — and different from the
original reading). -/
def recheckAdopt (realTimeMs : ℚ) (recheckValue : Option ℚ) : Option ℚ :=
  match recheckValue with
  | some v => if v ≠ 0 ∧ v ≠ realTimeMs then some v else none
  | none => none

/-- The per-frame status/state computation of `AnalysisWorker.analyze_video`
(worker.py lines 243-326): basic presence checks, Detector A with its recheck
path, the every-30th-frame-index statistical check on the accept path, then
Detector B. -/
def workerStep (s : ADState) (frameIdx : ℕ)
    (appTimeMs realTimeMs recheckValue : Option ℚ) : FrameResult × ADState :=
  match appTimeMs with
  | none =>
    ({ frameIdx := frameIdx, appTimeMs := none, realTimeMs := realTimeMs,
       delayMs := none, status := .appFail, errorReason := .appFailMsg }, s)
  | some a =>
    match realTimeMs with
    | none =>
      ({ frameIdx := frameIdx, appTimeMs := some a, realTimeMs := none,
         delayMs := none, status := .realFail, errorReason := .realFailMsg }, s)
    | some r =>
      let delayMs := a - r
      let chkA := check_detector_a s a r delayMs
      if !chkA.1 && chkA.2.2 then
        -- Detector A requested a recheck of T_real.
        match recheckAdopt r recheckValue with
        | some v => detectorBPhase s frameIdx a v (a - v) .okRechecked .recheckCorrected
        | none => detectorBPhase s frameIdx a r delayMs .ok .empty
      else if !chkA.1 then
        ({ frameIdx := frameIdx, appTimeMs := some a, realTimeMs := some r,
           delayMs := some delayMs, status := .wrong,
           errorReason := chkA.2.1.getD .empty }, s)
      else
        let s1 := { s with normal_delays := add_normal_delay s.normal_delays delayMs }
        if frameIdx % 30 = 0 ∧ frameIdx > 0 then
          let stat := check_statistical s1.normal_delays delayMs
          if stat.1 then detectorBPhase s1 frameIdx a r delayMs .ok .empty
          else
            ({ frameIdx := frameIdx, appTimeMs := some a, realTimeMs := some r,
               delayMs := some delayMs, status := .wrong,
               errorReason := stat.2.1.getD .empty }, s1)
        else detectorBPhase s1 frameIdx a r delayMs .ok .empty

/-- Run the frame loop over a list of `(frame_idx, app_time_ms, real_time_ms)`
samples, starting from the worker's freshly initialized detector, with no
recheck attempt ever producing a value. -/
def runWorker (inputs : List (ℕ × Option ℚ × Option ℚ)) :
    List FrameResult × ADState :=
  inputs.foldl
    (fun acc inp =>
      let step := workerStep acc.2 inp.1 inp.2.1 inp.2.2 none
      (acc.1 ++ [step.1], step.2))
    ([], workerADInit)

/-! ## `network_matcher.NetworkMatcher` -/

/-- One row of a loaded network log (`load_network_log`). -/
structure NetworkLogEntry where
  timestamp : ℚ
  ping_ms : Option ℚ
deriving DecidableEq

instance : Inhabited NetworkLogEntry := ⟨⟨0, none⟩⟩

/-- Python `bisect.bisect_left(timestamps, timestamp)`: the insertion point keeping
the list sorted; on an ascending list this is the number of elements strictly
below the probe, which is what the binary search returns. -/
def bisect_left (l : List ℚ) (x : ℚ) : ℕ := (l.takeWhile (fun t => t < x)).length

/-- Method `NetworkMatcher.find_nearest_ping(network_data, timestamp)` with matcher
tolerance `tolerance` (constructor default 1.0): binary-search the insertion
point, compare the immediate left and right neighbours, pick the smaller
absolute difference (ties to the left, as Python's `min` keeps the first
minimum), and accept only if that difference is at most the tolerance. -/
def find_nearest_ping (tolerance : ℚ) (networkData : List NetworkLogEntry)
    (timestamp : ℚ) : Option NetworkLogEntry :=
  if networkData.isEmpty then none
  else
    let timestamps := networkData.map (fun e => e.timestamp)
    let idx := bisect_left timestamps timestamp
    let candidates : List (ℕ × ℚ) :=
      (if idx > 0 then
        [(idx - 1, |(networkData.getD (idx - 1) default).timestamp - timestamp|)]
       else []) ++
      (if idx < networkData.length then
        [(idx, |(networkData.getD idx default).timestamp - timestamp|)]
       else [])
    match candidates with
    | [] => none
    | c :: rest =>
      let best := rest.foldl (fun acc x => if x.2 < acc.2 then x else acc) c
      if best.2 ≤ tolerance then some (networkData.getD best.1 default) else none

/-- A concrete bounding region used in the C4 scenario. -/
def c4roi : ℤ × ℤ × ℤ × ℤ := (0, 0, 10, 10)

/-- The detector state used to instantiate C9: a previously accepted pair at
0/0 so that an app jump of 100 ms against a real jump of 2000 ms trips the
jump-consistency check. -/
def c9State : ADState :=
  { hard_delay_max_ms := 10000, last_app_time_ms := some 0,
    last_real_time_ms := some 0, normal_delays := [], normal_frames := [],
    current_frame_idx := 0 }

/-- The detector state for the C6 scenario: 59 previously accepted delay
samples (all 0 ms) and a last accepted pair `(0, 0)`, so the incoming frame
is the 60th accepted sample. -/
def c6State : ADState :=
  { hard_delay_max_ms := 10000, last_app_time_ms := some 0,
    last_real_time_ms := some 0, normal_delays := List.replicate 59 0,
    normal_frames := [(5, 500, 500), (6, 1000, 1000)], current_frame_idx := 6 }

/-! ## Helper lemmas -/

@[simp] theorem recheckAdopt_none (r : ℚ) : recheckAdopt r none = none := rfl

@[simp] theorem recheckAdopt_some (r v : ℚ) :
    recheckAdopt r (some v) = if v ≠ 0 ∧ v ≠ r then some v else none := rfl


/-- The Detector-B phase echoes the app/real/delay values it is given. -/
theorem detectorBPhase_fields (s : ADState) (idx : ℕ) (a r d : ℚ)
    (st : Status) (rsn : Reason) :
    (detectorBPhase s idx a r d st rsn).1.appTimeMs = some a ∧
    (detectorBPhase s idx a r d st rsn).1.realTimeMs = some r ∧
    (detectorBPhase s idx a r d st rsn).1.delayMs = some d := by
  by_cases hc : (check_detector_b s.normal_frames idx r).1 <;>
    simp [detectorBPhase, hc]

/-- Detector B reports either no reason or a time-regression reason. -/
theorem check_detector_b_reason (nf : List (ℕ × ℚ × ℚ)) (idx : ℕ) (r : ℚ) :
    (check_detector_b nf idx r).2 = none ∨
    ∃ k, (check_detector_b nf idx r).2 = some (.timeRegression k) := by
  simp only [check_detector_b]
  rcases hf : List.find? (fun k => decide (r < realTimeOf nf k - 1000))
      ((((nf.map Prod.fst).filter (fun k => decide (k < idx))).insertionSort
        (· ≥ ·)).take 2) with _ | k
  · simp [hf]
  · exact Or.inr ⟨k, by simp [hf]⟩

/-! ## Claim theorems -/

/-- C10: `ROITracker.reset` clears only the tracking fields — the ROI becomes
absent, confidence 0.0, consecutive_fails 0, last_success_frame -1 — while
`total_uses` and `success_count` are left unchanged, so the cumulative usage
statistics reported by `get_stats` survive every tracking reset. -/
theorem C10_reset_preserves_usage (t : ROITracker) :
    t.reset.roi = none ∧ t.reset.roi_confidence = 0 ∧
    t.reset.consecutive_fails = 0 ∧ t.reset.last_success_frame = -1 ∧
    t.reset.total_uses = t.total_uses ∧
    t.reset.success_count = t.success_count ∧
    t.reset.get_stats.total_uses = t.get_stats.total_uses ∧
    t.reset.get_stats.success_count = t.get_stats.success_count ∧
    t.reset.get_stats.success_rate = t.get_stats.success_rate := by
  simp [ROITracker.reset, ROITracker.get_stats]

/-- C2: Detector A's hard physical bounds have highest precedence: whenever
the delay exceeds the configured hard cap or is below −5000 ms, the detector
reports abnormal with no recheck request (for any detector state, hence
before and independently of the jump-consistency logic), the worker records
the frame as `wrong`, and the configured default cap is 10000 ms. -/
theorem C2_hard_bounds (s : ADState) (idx : ℕ) (a r : ℚ) (oracle : Option ℚ)
    (h : a - r > s.hard_delay_max_ms ∨ a - r < -5000) :
    (check_detector_a s a r (a - r)).1 = false ∧
    (check_detector_a s a r (a - r)).2.2 = false ∧
    (workerStep s idx (some a) (some r) oracle).1.status = .wrong ∧
    workerADInit.hard_delay_max_ms = 10000 := by
  obtain ⟨rsn, hA⟩ : ∃ rsn, check_detector_a s a r (a - r) = (false, rsn, false) := by
    unfold check_detector_a
    rcases h with h | h
    · rw [if_pos h]; exact ⟨_, rfl⟩
    · by_cases h1 : a - r > s.hard_delay_max_ms
      · rw [if_pos h1]; exact ⟨_, rfl⟩
      · rw [if_neg h1]
        by_cases h2 : |a - r| > 10000
        · rw [if_pos h2]; exact ⟨_, rfl⟩
        · rw [if_neg h2, if_pos h]; exact ⟨_, rfl⟩
  refine ⟨by rw [hA], by rw [hA], ?_, rfl⟩
  simp [workerStep, hA]

/-- C2 witness: a delay of 20000 ms on the worker's freshly initialized
detector trips the hard cap (default 10000 ms) and is recorded `wrong`. -/
theorem C2_witness :
    (check_detector_a workerADInit 20000 0 (20000 - 0)).1 = false ∧
    (check_detector_a workerADInit 20000 0 (20000 - 0)).2.2 = false ∧
    (workerStep workerADInit 0 (some 20000) (some 0) none).1.status = .wrong ∧
    workerADInit.hard_delay_max_ms = 10000 :=
  C2_hard_bounds workerADInit 0 20000 0 none
    (Or.inl (by norm_num [workerADInit, ADState.init, workerHardDelayMaxMs,
      ANOMALY_DETECTION_hard_delay_max_ms]))

/-- C3 counterexample: when both labels are missing the worker records
`app_fail` (the app check comes first), never `both_fail`. -/
theorem C3_counterexample :
    (workerStep workerADInit 0 none none none).1.status = Status.appFail ∧
    (workerStep workerADInit 0 none none none).1.status ≠ Status.bothFail := by
  refine ⟨rfl, ?_⟩
  intro h
  simp [workerStep] at h

/-- C3 (amended): the recorded delay equals `app_ms − real_ms` (for the
finally recorded real value) when both labels parsed; otherwise the delay is
absent and the status is `app_fail` whenever the app label is missing — also
when the real label is missing too, so `both_fail` is never produced — and
`real_fail` when only the real label is missing. -/
theorem C3_amended_statuses :
    (∀ (s : ADState) (idx : ℕ) (real oracle : Option ℚ),
       (workerStep s idx none real oracle).1.delayMs = none ∧
       (workerStep s idx none real oracle).1.status = .appFail) ∧
    (∀ (s : ADState) (idx : ℕ) (a : ℚ) (oracle : Option ℚ),
       (workerStep s idx (some a) none oracle).1.delayMs = none ∧
       (workerStep s idx (some a) none oracle).1.status = .realFail) ∧
    (∀ (s : ADState) (idx : ℕ) (a r : ℚ) (oracle : Option ℚ),
       ∃ rfin : ℚ,
         (workerStep s idx (some a) (some r) oracle).1.realTimeMs = some rfin ∧
         (workerStep s idx (some a) (some r) oracle).1.delayMs = some (a - rfin)) := by
  refine ⟨fun s idx real oracle => ⟨rfl, rfl⟩,
          fun s idx a oracle => ⟨rfl, rfl⟩,
          fun s idx a r oracle => ?_⟩
  rcases hA : check_detector_a s a r (a - r) with ⟨bA, rsnA, recA⟩
  simp only [workerStep, hA]
  cases bA with
  | false =>
    cases recA with
    | false => exact ⟨r, rfl, rfl⟩
    | true =>
      simp only [Bool.not_false, Bool.and_self, if_true]
      cases oracle with
      | none =>
        exact ⟨r, (detectorBPhase_fields s idx a r (a - r) .ok .empty).2.1,
          (detectorBPhase_fields s idx a r (a - r) .ok .empty).2.2⟩
      | some v =>
        rw [recheckAdopt_some]
        by_cases hv : v ≠ 0 ∧ v ≠ r
        · rw [if_pos hv]
          exact ⟨v, (detectorBPhase_fields s idx a v (a - v) _ _).2.1,
            (detectorBPhase_fields s idx a v (a - v) _ _).2.2⟩
        · rw [if_neg hv]
          exact ⟨r, (detectorBPhase_fields s idx a r (a - r) _ _).2.1,
            (detectorBPhase_fields s idx a r (a - r) _ _).2.2⟩
  | true =>
    simp only [Bool.not_true, Bool.false_and, Bool.false_eq_true, if_false]
    by_cases hidx : idx % 30 = 0 ∧ idx > 0
    · rw [if_pos hidx]
      by_cases hst : (check_statistical
          (add_normal_delay s.normal_delays (a - r)) (a - r)).1 = true
      · simp only [hst, if_true]
        exact ⟨r, (detectorBPhase_fields _ idx a r (a - r) _ _).2.1,
          (detectorBPhase_fields _ idx a r (a - r) _ _).2.2⟩
      · simp only [Bool.not_eq_true] at hst
        simp only [hst, Bool.false_eq_true, if_false]
        exact ⟨r, rfl, rfl⟩
    · rw [if_neg hidx]
      exact ⟨r, (detectorBPhase_fields _ idx a r (a - r) _ _).2.1,
        (detectorBPhase_fields _ idx a r (a - r) _ _).2.2⟩

/-- C4 counterexample: from a freshly established state (`establish_roi` at
frame 5), a single failed fast-track update already makes `has_valid_roi`
false (confidence 0.5 − 0.1 = 0.4 falls below the 0.5 gate) — the claim's
"and not after fewer than 3" fails. -/
theorem C4_counterexample :
    ROITracker.has_valid_roi
      (ROITracker.update_roi (ROITracker.establish_roi ROITracker.init c4roi 5)
        c4roi 6 false) 7 = false := by
  norm_num [ROITracker.init, ROITracker.establish_roi, ROITracker.update_roi,
    ROITracker.reset, ROITracker.has_valid_roi, max_def]

/-- C4 (amended): starting from an established ROI state, `has_valid_roi` is
already false after the first failed fast-track update (the confidence drops
to 0.4, below the 0.5 gate), so the next recognition call performs a global
search from the first failure onward; the tracked region itself survives the
first two failures and is cleared (`reset`) exactly on the third consecutive
failed update. -/
theorem C4_amended_roi_failure (t : ROITracker) (roi roi1 roi2 roi3 : ℤ × ℤ × ℤ × ℤ)
    (i j1 j2 j3 k : ℤ) :
    ((t.establish_roi roi i).update_roi roi1 j1 false).has_valid_roi k = false ∧
    ((t.establish_roi roi i).update_roi roi1 j1 false).roi = some roi ∧
    ((t.establish_roi roi i).update_roi roi1 j1 false).consecutive_fails = 1 ∧
    (((t.establish_roi roi i).update_roi roi1 j1 false).update_roi roi2 j2
        false).roi = some roi ∧
    (((t.establish_roi roi i).update_roi roi1 j1 false).update_roi roi2 j2
        false).consecutive_fails = 2 ∧
    ((((t.establish_roi roi i).update_roi roi1 j1 false).update_roi roi2 j2
        false).update_roi roi3 j3 false).roi = none ∧
    ((((t.establish_roi roi i).update_roi roi1 j1 false).update_roi roi2 j2
        false).update_roi roi3 j3 false).roi_confidence = 0 ∧
    ((((t.establish_roi roi i).update_roi roi1 j1 false).update_roi roi2 j2
        false).update_roi roi3 j3 false).consecutive_fails = 0 ∧
    ((((t.establish_roi roi i).update_roi roi1 j1 false).update_roi roi2 j2
        false).update_roi roi3 j3 false).last_success_frame = -1 := by
  norm_num [ROITracker.establish_roi, ROITracker.update_roi, ROITracker.reset,
    ROITracker.has_valid_roi, max_def]

/-- C9: when Detector A flags a frame for recheck and the second recognition
attempt yields no parseable value at all, the whole outcome is identical to
the reattempt reproducing the original value: the original reading is kept,
and (Detector B passing) the frame is recorded `ok` with an empty error
reason, the original real value and the original delay. -/
theorem C9_recheck_no_value (s : ADState) (idx : ℕ) (a r : ℚ)
    (h1 : (check_detector_a s a r (a - r)).1 = false)
    (h2 : (check_detector_a s a r (a - r)).2.2 = true) :
    workerStep s idx (some a) (some r) none =
      workerStep s idx (some a) (some r) (some r) ∧
    ((check_detector_b s.normal_frames idx r).1 = true →
      (workerStep s idx (some a) (some r) none).1.status = .ok ∧
      (workerStep s idx (some a) (some r) none).1.errorReason = .empty ∧
      (workerStep s idx (some a) (some r) none).1.realTimeMs = some r ∧
      (workerStep s idx (some a) (some r) none).1.delayMs = some (a - r)) := by
  have hcond : (!(check_detector_a s a r (a - r)).1 &&
      (check_detector_a s a r (a - r)).2.2) = true := by
    rw [h1, h2]; rfl
  constructor
  · simp only [workerStep, hcond, if_true, recheckAdopt_none, recheckAdopt_some]
    rw [if_neg (by simp)]
  · intro hB
    simp only [workerStep, hcond, if_true, recheckAdopt_none]
    simp [detectorBPhase, hB]

/-- C9 witness: at `app = 100`, `real = 2000` against last pair `(0, 0)` the
jump check requests a recheck; a recheck with no value yields the same record
as one reproducing 2000, with status `ok` and empty reason. -/
theorem C9_witness :
    workerStep c9State 1 (some 100) (some 2000) none =
      workerStep c9State 1 (some 100) (some 2000) (some 2000) ∧
    (workerStep c9State 1 (some 100) (some 2000) none).1.status = .ok ∧
    (workerStep c9State 1 (some 100) (some 2000) none).1.errorReason = .empty := by
  have hA1 : (check_detector_a c9State 100 2000 (100 - 2000)).1 = false := by
    norm_num [check_detector_a, c9State]
  have hA2 : (check_detector_a c9State 100 2000 (100 - 2000)).2.2 = true := by
    norm_num [check_detector_a, c9State]
  have hB : (check_detector_b c9State.normal_frames 1 2000).1 = true := by
    simp [check_detector_b, c9State, List.insertionSort]
  have h := C9_recheck_no_value c9State 1 100 2000 hA1 hA2
  exact ⟨h.1, (h.2 hB).1, (h.2 hB).2.1⟩

/-- Python's `min` over a nonempty list (fold keeping the first minimum)
returns one of its elements. -/
theorem foldl_min_mem (rest : List (ℕ × ℚ)) (c : ℕ × ℚ) :
    rest.foldl (fun acc x => if x.2 < acc.2 then x else acc) c ∈ c :: rest := by
  induction rest generalizing c with
  | nil => simp
  | cons x xs ih =>
    simp only [List.foldl_cons]
    rcases List.mem_cons.mp (ih (if x.2 < c.2 then x else c)) with h1 | h1
    · rw [h1]
      by_cases hx : x.2 < c.2
      · rw [if_pos hx]; exact List.mem_cons_of_mem _ (List.mem_cons_self _ _)
      · rw [if_neg hx]; exact List.mem_cons_self _ _
    · exact List.mem_cons_of_mem _ (List.mem_cons_of_mem _ h1)

/-- C1 counterexample: on the log `[{timestamp:100},{timestamp:103}]` with
tolerance 1.0, the query 101.4 returns no result — the nearer neighbour (100)
is 1.4 s away, which already exceeds the tolerance — contradicting the
claim that the 100 entry is returned. -/
theorem C1_counterexample :
    find_nearest_ping 1 [⟨100, none⟩, ⟨103, none⟩] (101.4 : ℚ) = none := by
  norm_num [find_nearest_ping, bisect_left, List.takeWhile, List.getD_cons_zero,
    List.getD_cons_succ]
  rw [abs_of_nonneg (by norm_num : (0:ℚ) ≤ 8/5),
    abs_of_nonneg (by norm_num : (0:ℚ) ≤ 7/5)]
  norm_num

/-- C1 (amended): on the log `[{timestamp:100},{timestamp:103}]` with
tolerance 1.0, query 101.4 returns no result (nearest is 1.4 s away) just as
query 101.6 does (1.4 s / 1.6 s away); a neighbour whose absolute difference
equals the tolerance exactly is accepted (query 101.0 returns the 100 entry,
1.0 s away); and in general any returned entry is within tolerance of the
query. -/
theorem C1_amended_nearest_ping :
    find_nearest_ping 1 [⟨100, none⟩, ⟨103, none⟩] (101.4 : ℚ) = none ∧
    find_nearest_ping 1 [⟨100, none⟩, ⟨103, none⟩] (101.6 : ℚ) = none ∧
    find_nearest_ping 1 [⟨100, none⟩, ⟨103, none⟩] (101 : ℚ) = some ⟨100, none⟩ ∧
    ∀ (tol : ℚ) (l : List NetworkLogEntry) (ts : ℚ) (e : NetworkLogEntry),
      find_nearest_ping tol l ts = some e → |e.timestamp - ts| ≤ tol := by
  refine ⟨?_, ?_, ?_, ?_⟩
  · norm_num [find_nearest_ping, bisect_left, List.takeWhile, List.getD_cons_zero,
      List.getD_cons_succ]
    rw [abs_of_nonneg (by norm_num : (0:ℚ) ≤ 8/5),
      abs_of_nonneg (by norm_num : (0:ℚ) ≤ 7/5)]
    norm_num
  · norm_num [find_nearest_ping, bisect_left, List.takeWhile, List.getD_cons_zero,
      List.getD_cons_succ]
    rw [abs_of_nonneg (by norm_num : (0:ℚ) ≤ 8/5),
      abs_of_nonneg (by norm_num : (0:ℚ) ≤ 7/5)]
    norm_num
  · norm_num [find_nearest_ping, bisect_left, List.takeWhile, List.getD_cons_zero,
      List.getD_cons_succ]
  · intro tol l ts e h
    by_cases hl : l.isEmpty
    · simp [find_nearest_ping, hl] at h
    · simp only [find_nearest_ping, hl, Bool.false_eq_true, if_false] at h
      generalize hc :
        ((if bisect_left (l.map (fun e => e.timestamp)) ts > 0 then
            [(bisect_left (l.map (fun e => e.timestamp)) ts - 1,
              |(l.getD (bisect_left (l.map (fun e => e.timestamp)) ts - 1)
                  default).timestamp - ts|)]
          else []) ++
         (if bisect_left (l.map (fun e => e.timestamp)) ts < l.length then
            [(bisect_left (l.map (fun e => e.timestamp)) ts,
              |(l.getD (bisect_left (l.map (fun e => e.timestamp)) ts)
                  default).timestamp - ts|)]
          else [])) = cands at h
      have hprop : ∀ p ∈ cands, p.2 = |(l.getD p.1 default).timestamp - ts| := by
        intro p hp
        rw [← hc] at hp
        rcases List.mem_append.mp hp with hp | hp <;>
          [skip; skip] <;>
          · split at hp <;> simp_all
      cases cands with
      | nil => simp at h
      | cons c rest =>
        simp only at h
        have hmem := foldl_min_mem rest c
        have h2 := hprop _ hmem
        by_cases hle :
            (rest.foldl (fun acc x => if x.2 < acc.2 then x else acc) c).2 ≤ tol
        · rw [if_pos hle] at h
          have he := Option.some.inj h
          rw [← he, ← h2]
          exact hle
        · rw [if_neg hle] at h
          exact absurd h (by simp)

/-- C1 witness for the general tolerance bound: the accepted entry for query
101.0 is indeed within tolerance. -/
theorem C1_witness :
    |((⟨100, none⟩ : NetworkLogEntry).timestamp - (101 : ℚ))| ≤ 1 :=
  C1_amended_nearest_ping.2.2.2 1 [⟨100, none⟩, ⟨103, none⟩] 101 ⟨100, none⟩
    C1_amended_nearest_ping.2.2.1

/-- Membership in the first `n` elements of a strictly descending list is
exactly: membership with fewer than `n` larger elements. -/
theorem mem_take_iff_of_pairwise_gt (S : List ℕ) (hS : S.Pairwise (· > ·))
    (n : ℕ) (x : ℕ) :
    x ∈ S.take n ↔ x ∈ S ∧ (S.filter (fun j => x < j)).length < n := by
  induction S generalizing n with
  | nil => simp
  | cons a T ih =>
    have ha : ∀ b ∈ T, a > b := (List.pairwise_cons.mp hS).1
    have hT := (List.pairwise_cons.mp hS).2
    cases n with
    | zero => simp
    | succ n =>
      simp only [List.take_succ_cons]
      by_cases hxa : x = a
      · subst hxa
        have hfil : T.filter (fun j => decide (x < j)) = [] := by
          rw [List.filter_eq_nil_iff]
          intro b hb
          simp only [decide_eq_true_eq, not_lt]
          exact le_of_lt (ha b hb)
        simp [List.filter_cons, hfil, Nat.succ_pos]
      · by_cases hxT : x ∈ T
        · have hax : x < a := ha x hxT
          have hfil : List.filter (fun j => decide (x < j)) (a :: T) =
              a :: T.filter (fun j => decide (x < j)) := by
            simp [List.filter_cons, hax]
          constructor
          · intro hmem
            have hx' : x ∈ T.take n := by
              rcases List.mem_cons.mp hmem with h | h
              · exact absurd h hxa
              · exact h
            have := (ih hT n).mp hx'
            refine ⟨List.mem_cons_of_mem _ hxT, ?_⟩
            rw [hfil]
            simpa using this.2
          · intro ⟨_, hlen⟩
            rw [hfil] at hlen
            simp only [List.length_cons] at hlen
            have := (ih hT n).mpr ⟨hxT, by omega⟩
            exact List.mem_cons_of_mem _ this
        · constructor
          · intro hmem
            rcases List.mem_cons.mp hmem with h | h
            · exact absurd h hxa
            · exact absurd (List.mem_of_mem_take h) hxT
          · intro ⟨hmem, _⟩
            rcases List.mem_cons.mp hmem with h | h
            · exact absurd h hxa
            · exact absurd h hxT

/-- With unique keys, the dictionary lookup returns the stored value. -/
theorem nfLookup_of_mem (nf : List (ℕ × ℚ × ℚ)) (hnd : (nf.map Prod.fst).Nodup)
    (k : ℕ) (a v : ℚ) (hm : (k, a, v) ∈ nf) : nfLookup nf k = some (a, v) := by
  induction nf with
  | nil => cases hm
  | cons p rest ih =>
    rcases List.mem_cons.mp hm with h | h
    · subst h
      simp [nfLookup]
    · have hnd' : (p.1 :: rest.map Prod.fst).Nodup := by simpa using hnd
      have hkmem : k ∈ rest.map Prod.fst := List.mem_map_of_mem Prod.fst h
      have hk : ¬(p.1 = k) := by
        intro he
        exact (List.nodup_cons.mp hnd').1 (he ▸ hkmem)
      have htl : (rest.map Prod.fst).Nodup := (List.nodup_cons.mp hnd').2
      have hstep : List.find? (fun q => decide (q.1 = k)) (p :: rest) =
          List.find? (fun q => decide (q.1 = k)) rest :=
        List.find?_cons_of_neg _ (by simpa using hk)
      have hrec := ih htl h
      simp only [nfLookup] at hrec ⊢
      rw [hstep]
      exact hrec

/-- C5: Detector B compares the candidate `real_ms` only against the two most
recent accepted frames strictly before the current one, ordered by
`frame_idx`, and reports a regression exactly when the candidate is smaller
than a stored value by more than the 1000 ms tolerance; in particular with
accepted frames `{10: real 5000, 12: real 6000}` a candidate frame 13 with
`real_ms = 4000` is rejected. -/
theorem C5_detector_b :
    (∀ (nf : List (ℕ × ℚ × ℚ)) (idx : ℕ) (r : ℚ),
       (nf.map Prod.fst).Nodup →
       ((check_detector_b nf idx r).1 = false ↔
         ∃ k a v, (k, a, v) ∈ nf ∧ k < idx ∧
           ((nf.map Prod.fst).filter (fun j => k < j ∧ j < idx)).length < 2 ∧
           r < v - 1000)) ∧
    (check_detector_b [(10, 0, 5000), (12, 0, 6000)] 13 4000).1 = false := by
  constructor
  · intro nf idx r hnd
    have hLnd : ((nf.map Prod.fst).filter (fun k => decide (k < idx))).Nodup :=
      hnd.filter _
    have hSnd : (((nf.map Prod.fst).filter (fun k => decide (k < idx))).insertionSort
        (· ≥ ·)).Nodup :=
      (List.perm_insertionSort _ _).nodup_iff.mpr hLnd
    have hSsorted : (((nf.map Prod.fst).filter (fun k => decide (k < idx))).insertionSort
        (· ≥ ·)).Pairwise (· > ·) := by
      have hs := List.sorted_insertionSort (α := ℕ) (· ≥ ·)
        ((nf.map Prod.fst).filter (fun k => decide (k < idx)))
      exact (hs.and hSnd).imp (fun {a b} hab => lt_of_le_of_ne hab.1 (Ne.symm hab.2))
    have key : (check_detector_b nf idx r).1 = false ↔
        ∃ k ∈ (((nf.map Prod.fst).filter (fun k => decide (k < idx))).insertionSort
          (· ≥ ·)).take 2, r < realTimeOf nf k - 1000 := by
      simp only [check_detector_b]
      rcases hf : ((((nf.map Prod.fst).filter (fun k => decide (k < idx))).insertionSort
          (· ≥ ·)).take 2).find? (fun k => decide (r < realTimeOf nf k - 1000))
          with _ | k₀
      · rw [List.find?_eq_none] at hf
        simp only [hf]
        constructor
        · intro h; cases h
        · rintro ⟨k, hk, hpred⟩
          exact absurd (by simpa using hpred) (by simpa using hf k hk)
      · have hpred := List.find?_some hf
        have hmem := List.mem_of_find?_eq_some hf
        simp only [hf]
        exact ⟨fun _ => ⟨k₀, hmem, by simpa using hpred⟩, fun _ => by trivial⟩
    rw [key]
    constructor
    · rintro ⟨k, hk2, hpred⟩
      have hchar := (mem_take_iff_of_pairwise_gt _ hSsorted 2 k).mp hk2
      have hkS : k ∈ ((nf.map Prod.fst).filter (fun k => decide (k < idx))) := by
        simpa using hchar.1
      have hkkeys : k ∈ nf.map Prod.fst := (List.mem_filter.mp hkS).1
      have hkidx : k < idx := by
        have := (List.mem_filter.mp hkS).2
        simpa using this
      rcases List.mem_map.mp hkkeys with ⟨⟨k2, a, v⟩, hp, hp1⟩
      simp only at hp1
      rw [hp1] at hp
      have hlook := nfLookup_of_mem nf hnd k a v hp
      have hreal : realTimeOf nf k = v := by simp [realTimeOf, hlook]
      refine ⟨k, a, v, hp, hkidx, ?_, by rwa [hreal] at hpred⟩
      have hlen := hchar.2
      have hperm := (List.perm_insertionSort (α := ℕ) (· ≥ ·)
        ((nf.map Prod.fst).filter (fun k => decide (k < idx)))).filter
        (fun j => decide (k < j))
      rw [hperm.length_eq, List.filter_filter] at hlen
      have : ((nf.map Prod.fst).filter (fun j => decide (k < j ∧ j < idx))).length =
          ((nf.map Prod.fst).filter
            (fun j => decide (k < j) && decide (j < idx))).length := by
        congr 1
        apply List.filter_congr
        intro j _
        by_cases h1 : k < j <;> by_cases h2 : j < idx <;> simp [h1, h2]
      rw [this]
      exact hlen
    · rintro ⟨k, a, v, hp, hkidx, hlen, hpred⟩
      have hlook := nfLookup_of_mem nf hnd k a v hp
      have hreal : realTimeOf nf k = v := by simp [realTimeOf, hlook]
      refine ⟨k, ?_, by rwa [hreal]⟩
      rw [mem_take_iff_of_pairwise_gt _ hSsorted 2 k]
      have hkkeys : k ∈ nf.map Prod.fst := List.mem_map_of_mem Prod.fst hp
      refine ⟨by simp [List.mem_filter, hkkeys, hkidx], ?_⟩
      have hperm := (List.perm_insertionSort (α := ℕ) (· ≥ ·)
        ((nf.map Prod.fst).filter (fun k => decide (k < idx)))).filter
        (fun j => decide (k < j))
      rw [hperm.length_eq, List.filter_filter]
      have : ((nf.map Prod.fst).filter (fun j => decide (k < j ∧ j < idx))).length =
          ((nf.map Prod.fst).filter
            (fun j => decide (k < j) && decide (j < idx))).length := by
        congr 1
        apply List.filter_congr
        intro j _
        by_cases h1 : k < j <;> by_cases h2 : j < idx <;> simp [h1, h2]
      rw [← this]
      exact hlen
  · norm_num [check_detector_b, realTimeOf, nfLookup, List.insertionSort,
      List.orderedInsert, List.find?]

/-- C5 witness: the characterization instantiated on the concrete scenario —
frame 12 (real 6000) is among the two most recent before 13 and exceeds the
candidate 4000 by more than the tolerance. -/
theorem C5_witness :
    ∃ k a v, (k, a, v) ∈ [((10:ℕ), (0:ℚ), (5000:ℚ)), (12, 0, 6000)] ∧ k < 13 ∧
      (([((10:ℕ), (0:ℚ), (5000:ℚ)), (12, 0, 6000)].map Prod.fst).filter
        (fun j => k < j ∧ j < 13)).length < 2 ∧
      (4000:ℚ) < v - 1000 :=
  (C5_detector_b.1 [(10, 0, 5000), (12, 0, 6000)] 13 4000 (by simp)).mp
    C5_detector_b.2

/-- Reading `getD` on a replicate of the default value. -/
theorem getD_replicate_zero (n i : ℕ) : (List.replicate n (0:ℚ)).getD i 0 = 0 := by
  simp [List.getD]

/-- A constant-zero list is sorted. -/
theorem sorted_replicate_zero (n : ℕ) :
    (List.replicate n (0:ℚ)).Sorted (· ≤ ·) := by
  induction n with
  | zero => simp
  | succ n ih =>
    rw [List.replicate_succ]
    exact List.Pairwise.cons
      (fun b hb => by simp [List.eq_of_mem_replicate hb]) ih

/-- Zeros followed by a nonnegative value are sorted. -/
theorem sorted_replicate_zero_append (n : ℕ) (b : ℚ) (hb : 0 ≤ b) :
    (List.replicate n (0:ℚ) ++ [b]).Sorted (· ≤ ·) := by
  rw [List.Sorted, List.pairwise_append]
  refine ⟨sorted_replicate_zero n, by simp, ?_⟩
  intro x hx y hy
  rw [List.eq_of_mem_replicate hx]
  rcases List.mem_singleton.mp hy with rfl
  exact hb

/-- The median of a constant-zero list is zero. -/
theorem median_replicate_zero (n : ℕ) : median (List.replicate n (0:ℚ)) = 0 := by
  simp only [median]
  rw [(sorted_replicate_zero n).insertionSort_eq]
  split <;> simp [getD_replicate_zero]

/-- The median of at least two zeros and one trailing nonnegative outlier is
still zero. -/
theorem median_replicate_zero_append (n : ℕ) (b : ℚ) (hb : 0 ≤ b)
    (hn : 2 ≤ n) : median (List.replicate n (0:ℚ) ++ [b]) = 0 := by
  simp only [median]
  rw [(sorted_replicate_zero_append n b hb).insertionSort_eq]
  have hlen : (List.replicate n (0:ℚ) ++ [b]).length = n + 1 := by simp
  rw [hlen]
  have hget : ∀ i, i < n → (List.replicate n (0:ℚ) ++ [b]).getD i 0 = 0 := by
    intro i hi
    rw [List.getD_append _ _ _ _ (by simpa using hi)]
    exact getD_replicate_zero n i
  by_cases hodd : (n + 1) % 2 = 1
  · rw [if_pos hodd, hget _ (by omega)]
  · rw [if_neg hodd, hget _ (by omega), hget _ (by omega)]
    norm_num

/-- A flagged statistical check always carries the outlier reason. -/
theorem check_statistical_flag_reason (ds : List ℚ) (x : ℚ)
    (h : (check_statistical ds x).1 = false) :
    (check_statistical ds x).2.1 = some .statOutlier := by
  simp only [check_statistical] at h ⊢
  split_ifs at h ⊢ <;> rfl

/-- The Detector-B phase never invents the statistical-outlier reason. -/
theorem detectorBPhase_reason_ne_stat (s : ADState) (idx : ℕ) (a r d : ℚ)
    (st : Status) (rsn : Reason) (hr : rsn ≠ .statOutlier) :
    (detectorBPhase s idx a r d st rsn).1.errorReason ≠ .statOutlier := by
  unfold detectorBPhase
  by_cases hc : (check_detector_b s.normal_frames idx r).1
  · simpa [hc] using hr
  · rcases check_detector_b_reason s.normal_frames idx r with h | ⟨k, h⟩ <;>
      simp [hc, h]

/-- C6 counterexample: frame 7 with delay 400 ms is the 60th accepted sample
(59 accepted delays are already stored), so under the claim the statistical
check runs (60 is a multiple of 30) and would flag it (z-score 26980 > 5);
but the code gates the check on `frame_idx % 30 == 0` — the raw frame index,
not the accepted count — and 7 % 30 ≠ 0, so the frame is recorded `ok` with
an empty reason. -/
theorem C6_counterexample :
    (workerStep c6State 7 (some 400) (some 0) none).1.status = .ok ∧
    (workerStep c6State 7 (some 400) (some 0) none).1.errorReason = .empty ∧
    c6State.normal_delays.length = 59 ∧
    (check_statistical (add_normal_delay c6State.normal_delays 400)
      400).1 = false := by
  have hA : check_detector_a c6State 400 0 (400 - 0) = (true, none, false) := by
    norm_num [check_detector_a, c6State]
  have hB : check_detector_b [(5, (500:ℚ), (500:ℚ)), (6, 1000, 1000)] 7 0 =
      (true, none) := by
    norm_num [check_detector_b, realTimeOf, nfLookup,
      List.insertionSort, List.orderedInsert, List.find?]
  have hadd : add_normal_delay c6State.normal_delays 400 =
      List.replicate 59 (0:ℚ) ++ [400] := by
    norm_num [add_normal_delay, c6State]
  have hmed : median (List.replicate 59 (0:ℚ) ++ [400]) = 0 :=
    median_replicate_zero_append 59 400 (by norm_num) (by norm_num)
  have habs : |(400:ℚ)| = 400 := by norm_num
  have hdev : (List.replicate 59 (0:ℚ) ++ [400]).map (fun d => |d - 0|) =
      List.replicate 59 (0:ℚ) ++ [400] := by
    simp [sub_zero, habs]
  have hstat : (check_statistical (List.replicate 59 (0:ℚ) ++ [400]) 400).1 =
      false := by
    have hz : |(6745/10000 : ℚ) * (400 - 0) / (1/100)| > 5 := by
      rw [abs_of_nonneg (by norm_num)]
      norm_num
    simp only [check_statistical, hmed]
    rw [if_neg (by simp), hdev, hmed]
    rw [if_pos (by norm_num : (0:ℚ) < 1/100)]
    rw [if_pos hz]
  refine ⟨?_, ?_, by simp [c6State], by rw [hadd]; exact hstat⟩ <;>
  · simp only [workerStep, hA]
    norm_num [detectorBPhase, hB, c6State]

/-- C6 (amended): for at least 30 stored accepted delays the statistical
check flags exactly when the modified z-score `0.6745·(x − median)/MAD` (MAD
floored at 0.01) exceeds 5 in absolute value; on an accepted frame (Detector
A passed) the worker applies it — and records the statistical-outlier reason
— exactly when the raw frame index is a positive multiple of 30, on the
stored delays with the candidate appended; and the stored list always keeps
at most the last 500 accepted delays. -/
theorem C6_amended_statistical :
    (∀ (ds : List ℚ) (x : ℚ), 30 ≤ ds.length →
       ((check_statistical ds x).1 = false ↔
         |(6745/10000 : ℚ) * (x - median ds) /
           max (median (ds.map (fun d => |d - median ds|))) (1/100)| > 5)) ∧
    (∀ (s : ADState) (idx : ℕ) (a r : ℚ) (oracle : Option ℚ),
       check_detector_a s a r (a - r) = (true, none, false) →
       ((workerStep s idx (some a) (some r) oracle).1.errorReason =
          .statOutlier ↔
         (idx % 30 = 0 ∧ idx > 0 ∧
          (check_statistical (add_normal_delay s.normal_delays (a - r))
            (a - r)).1 = false))) ∧
    (∀ (ds : List ℚ) (d : ℚ),
       (add_normal_delay ds d).length ≤ 500 ∧
       (add_normal_delay ds d).IsSuffix (ds ++ [d])) := by
  refine ⟨?_, ?_, ?_⟩
  · intro ds x h30
    simp only [check_statistical]
    rw [if_neg (by omega)]
    have hmax : (if median (ds.map fun d => |d - median ds|) < 1/100 then (1:ℚ)/100
        else median (ds.map fun d => |d - median ds|)) =
        max (median (ds.map fun d => |d - median ds|)) (1/100) := by
      by_cases h : median (ds.map fun d => |d - median ds|) < 1/100
      · rw [if_pos h, max_eq_right (le_of_lt h)]
      · rw [if_neg h, max_eq_left (le_of_not_lt h)]
    rw [hmax]
    split_ifs with h
    · exact iff_of_true rfl h
    · exact iff_of_false (by simp) h
  · intro s idx a r oracle hA
    simp only [workerStep, hA]
    norm_num
    by_cases hidx : idx % 30 = 0 ∧ idx > 0
    · rw [if_pos hidx]
      rcases hst : (check_statistical
          (add_normal_delay s.normal_delays (a - r)) (a - r)).1 with _ | _
      · rw [if_neg (by simp [hst])]
        simp only [check_statistical_flag_reason _ _ hst, Option.getD_some]
        simp [hidx.1, hidx.2, hst]
      · rw [if_pos (by simp [hst])]
        have := detectorBPhase_reason_ne_stat
          { s with normal_delays := add_normal_delay s.normal_delays (a - r) }
          idx a r (a - r) .ok .empty (by simp)
        simp [this, hst]
    · rw [if_neg hidx]
      have := detectorBPhase_reason_ne_stat
        { s with normal_delays := add_normal_delay s.normal_delays (a - r) }
        idx a r (a - r) .ok .empty (by simp)
      simp only [this, false_iff]
      intro hcon
      exact hidx ⟨hcon.1, hcon.2.1⟩
  · intro ds d
    simp only [add_normal_delay]
    split_ifs with h
    · constructor
      · rw [List.length_drop]; omega
      · exact List.drop_suffix _ _
    · exact ⟨by simp at h ⊢; omega, List.suffix_refl _⟩

/-- C6 witness: with exactly 30 stored zero delays a candidate of 400 ms is
flagged by the statistical check (z-score 26980). -/
theorem C6_witness :
    (check_statistical (List.replicate 30 (0:ℚ)) 400).1 = false := by
  have h := C6_amended_statistical.1 (List.replicate 30 (0:ℚ)) 400 (by simp)
  rw [h, median_replicate_zero]
  have habs : |(400:ℚ)| = 400 := by norm_num
  have hdev : (List.replicate 30 (0:ℚ)).map (fun d => |d - 0|) =
      List.replicate 30 (0:ℚ) := by
    simp [sub_zero]
  rw [hdev, median_replicate_zero]
  rw [sub_zero, max_eq_right (by norm_num : (0:ℚ) ≤ 1/100)]
  rw [abs_of_nonneg (by norm_num : (0:ℚ) ≤ 6745/10000 * 400 / (1/100))]
  norm_num

/-- Every run produced by the digit-run extraction is a nonempty string of
digits. -/
theorem digitRunsAux_spec (cs : List Char) :
    ∀ acc : List Char, (∀ c ∈ acc, c.isDigit) →
    ∀ r ∈ digitRunsAux cs acc, r ≠ [] ∧ ∀ c ∈ r, c.isDigit := by
  induction cs with
  | nil =>
    intro acc hacc r hr
    simp only [digitRunsAux] at hr
    by_cases hae : acc.isEmpty
    · rw [if_pos hae] at hr
      cases hr
    · rw [if_neg hae] at hr
      rcases List.mem_singleton.mp hr with rfl
      refine ⟨?_, fun x hx => hacc x (List.mem_reverse.mp hx)⟩
      simpa [List.isEmpty_iff] using hae
  | cons c rest ih =>
    intro acc hacc r hr
    simp only [digitRunsAux] at hr
    by_cases hc : c.isDigit
    · rw [if_pos hc] at hr
      refine ih (c :: acc) ?_ r hr
      intro x hx
      rcases List.mem_cons.mp hx with rfl | hx
      · exact hc
      · exact hacc x hx
    · rw [if_neg hc] at hr
      by_cases hae : acc.isEmpty
      · rw [if_pos hae] at hr
        exact ih [] (by simp) r hr
      · rw [if_neg hae] at hr
        rcases List.mem_cons.mp hr with rfl | hr2
        · refine ⟨?_, fun x hx => hacc x (List.mem_reverse.mp hx)⟩
          simpa [List.isEmpty_iff] using hae
        · exact ih [] (by simp) r hr2

/-- C7: the digit-run parser parses exactly the runs of length 6 (as `HHMMSS`
with milliseconds 000) and of length ≥ 9 (as `HHMMSS` with the next three
digits as milliseconds), in both cases requiring the fields in range; runs of
length 7 or 8 are always rejected; the text-level parser returns the first
run that parses, and every extracted run is a nonempty maximal digit string. -/
theorem C7_digit_runs :
    (∀ r : List Char, r.length = 7 ∨ r.length = 8 → parseDigitRun r = none) ∧
    (∀ (r t : List Char), parseDigitRun r = some t ↔
      ((r.length = 6 ∨ 9 ≤ r.length) ∧
       dv2 (r.getD 0 '0') (r.getD 1 '0') ≤ 23 ∧
       dv2 (r.getD 2 '0') (r.getD 3 '0') ≤ 59 ∧
       dv2 (r.getD 4 '0') (r.getD 5 '0') ≤ 59 ∧
       t = canonicalOf (dv2 (r.getD 0 '0') (r.getD 1 '0'))
             (dv2 (r.getD 2 '0') (r.getD 3 '0'))
             (dv2 (r.getD 4 '0') (r.getD 5 '0'))
             (if r.length = 6 then ['0', '0', '0']
              else [r.getD 6 '0', r.getD 7 '0', r.getD 8 '0']))) ∧
    (∀ cs : List Char, parse_time_format_digits cs =
       (digitRuns cs).findSome? parseDigitRun) ∧
    (∀ cs : List Char, ∀ r ∈ digitRuns cs, r ≠ [] ∧ ∀ c ∈ r, c.isDigit) := by
  refine ⟨?_, ?_, fun cs => rfl, fun cs => digitRunsAux_spec cs [] (by simp)⟩
  · intro r h
    simp only [parseDigitRun]
    rw [if_neg (by omega), if_neg (by omega)]
  · intro r t
    simp only [parseDigitRun]
    by_cases h6 : r.length = 6
    · rw [if_pos h6]
      split_ifs with hr
      · constructor
        · intro ht
          exact ⟨Or.inl h6, hr.1, hr.2.1, hr.2.2, (Option.some.inj ht).symm⟩
        · rintro ⟨_, _, _, _, rfl⟩
          rfl
      · constructor
        · intro ht; cases ht
        · rintro ⟨_, h1, h2, h3, _⟩
          exact absurd ⟨h1, h2, h3⟩ hr
    · rw [if_neg h6]
      by_cases h9 : 9 ≤ r.length
      · rw [if_pos h9]
        split_ifs with hr
        · constructor
          · intro ht
            exact ⟨Or.inr h9, hr.1, hr.2.1, hr.2.2, (Option.some.inj ht).symm⟩
          · rintro ⟨_, _, _, _, rfl⟩
            rfl
        · constructor
          · intro ht; cases ht
          · rintro ⟨_, h1, h2, h3, _⟩
            exact absurd ⟨h1, h2, h3⟩ hr
      · rw [if_neg h9]
        constructor
        · intro ht; cases ht
        · rintro ⟨hlen, _⟩
          rcases hlen with h | h
          · exact absurd h h6
          · exact absurd h h9

/-- C7 witness: a 7-digit run is rejected; a 9-digit run parses with the
first three trailing digits as milliseconds. -/
theorem C7_witness :
    parseDigitRun "1234567".toList = none ∧
    parseDigitRun "123456789".toList = some "12:34:56.789".toList := by
  constructor
  · exact C7_digit_runs.1 _ (Or.inl (by decide))
  · exact (C7_digit_runs.2.1 _ _).mpr
      ⟨Or.inr (by decide), by decide, by decide, by decide, by decide⟩

/-! ## Digit-character and splitting lemmas for the colon parser (C8) -/

/-- A digit character's code point lies in `[48, 57]`. -/
theorem digit_toNat_bounds (c : Char) (h : c.isDigit = true) :
    48 ≤ c.toNat ∧ c.toNat ≤ 57 := by
  simp only [Char.isDigit, Bool.and_eq_true, decide_eq_true_eq] at h
  exact ⟨h.1, h.2⟩

/-- Every digit character is the rendering of its value. -/
theorem digitCharOf_dv (c : Char) (h : c.isDigit = true) :
    digitCharOf (dv c) = c := by
  obtain ⟨h1, h2⟩ := digit_toNat_bounds c h
  have he : 48 + dv c = c.toNat := by unfold dv; omega
  rw [digitCharOf, he, Char.ofNat_toNat]

/-- A digit character's value is below 10. -/
theorem dv_lt_ten (c : Char) (h : c.isDigit = true) : dv c < 10 := by
  obtain ⟨h1, h2⟩ := digit_toNat_bounds c h
  unfold dv; omega

/-- Rendered digits are digit characters. -/
theorem isDigit_digitCharOf {n : ℕ} (h : n < 10) :
    (digitCharOf n).isDigit = true := by
  interval_cases n <;> decide

/-- Rendering then reading a digit value is the identity. -/
theorem dv_digitCharOf {n : ℕ} (h : n < 10) : dv (digitCharOf n) = n := by
  interval_cases n <;> decide

/-- Rendered digits are not the separator characters. -/
theorem digitCharOf_ne {n : ℕ} (h : n < 10) :
    digitCharOf n ≠ ':' ∧ digitCharOf n ≠ '.' ∧ digitCharOf n ≠ '+' ∧
    digitCharOf n ≠ '-' := by
  interval_cases n <;> exact ⟨by decide, by decide, by decide, by decide⟩

/-- Digit characters are not the separator characters. -/
theorem digit_ne (c : Char) (h : c.isDigit = true) :
    c ≠ ':' ∧ c ≠ '.' ∧ c ≠ '+' ∧ c ≠ '-' := by
  rw [← digitCharOf_dv c h]
  exact digitCharOf_ne (dv_lt_ten c h)

/-- The split `pySplit` never returns the empty list of parts. -/
theorem pySplit_ne_nil (sep : Char) (cs : List Char) : pySplit sep cs ≠ [] := by
  induction cs with
  | nil => simp [pySplit]
  | cons c rest ih =>
    simp only [pySplit]
    split_ifs with hc
    · simp
    · cases hr : pySplit sep rest with
      | nil => simp
      | cons a t => simp

/-- Splitting a separator-free prefix: the prefix joins the first part of the
split of the remainder. -/
theorem pySplit_sepfree_append (sep : Char) (l cs : List Char)
    (hl : ∀ c ∈ l, c ≠ sep) :
    pySplit sep (l ++ cs) =
      (l ++ (pySplit sep cs).headD []) :: (pySplit sep cs).tail := by
  induction l with
  | nil =>
    cases hps : pySplit sep cs with
    | nil => exact absurd hps (pySplit_ne_nil sep cs)
    | cons a t => simp [hps]
  | cons c l' ih =>
    have hc : c ≠ sep := hl c (List.mem_cons_self c l')
    simp only [List.cons_append, pySplit, List.append_eq]
    rw [if_neg hc, ih (fun x hx => hl x (List.mem_cons_of_mem _ hx))]

/-- Splitting a separator-free string yields one part. -/
theorem pySplit_sepfree (sep : Char) (l : List Char) (hl : ∀ c ∈ l, c ≠ sep) :
    pySplit sep l = [l] := by
  have h := pySplit_sepfree_append sep l [] hl
  simpa [pySplit] using h

/-- Splitting at a leading separator. -/
theorem pySplit_cons_sep (sep : Char) (cs : List Char) :
    pySplit sep (sep :: cs) = [] :: pySplit sep cs := by
  simp [pySplit]

/-- The canonical string written out character by character. -/
theorem canonicalOf_explicit (h m s : ℕ) (ms : List Char) :
    canonicalOf h m s ms =
      digitCharOf (h / 10) :: digitCharOf (h % 10) :: ':' ::
      digitCharOf (m / 10) :: digitCharOf (m % 10) :: ':' ::
      digitCharOf (s / 10) :: digitCharOf (s % 10) :: '.' :: ms := rfl

/-- The colon pattern matches at the start of a canonical string, capturing
all groups including the milliseconds. -/
theorem matchColonAt_canonical (h m s : ℕ) (hh : h < 100) (hm : m < 100)
    (hs : s < 100) (e1 e2 e3 : Char) (he1 : e1.isDigit = true)
    (he2 : e2.isDigit = true) (he3 : e3.isDigit = true) :
    matchColonAt (canonicalOf h m s [e1, e2, e3]) =
      some (digitCharOf (h / 10), digitCharOf (h % 10), digitCharOf (m / 10),
        digitCharOf (m % 10), digitCharOf (s / 10), digitCharOf (s % 10),
        some (e1, e2, e3)) := by
  rw [canonicalOf_explicit]
  simp only [matchColonAt]
  rw [if_pos, if_pos]
  · simp [he1, he2, he3, lookaheadOK]
  · simp [isDigit_digitCharOf (by omega : h / 10 < 10),
      isDigit_digitCharOf (by omega : h % 10 < 10),
      isDigit_digitCharOf (by omega : m / 10 < 10),
      isDigit_digitCharOf (by omega : m % 10 < 10),
      isDigit_digitCharOf (by omega : s / 10 < 10),
      isDigit_digitCharOf (by omega : s % 10 < 10)]

/-- The search finds the match at position 0 of a canonical string. -/
theorem searchColon_canonical (h m s : ℕ) (hh : h < 100) (hm : m < 100)
    (hs : s < 100) (e1 e2 e3 : Char) (he1 : e1.isDigit = true)
    (he2 : e2.isDigit = true) (he3 : e3.isDigit = true) :
    searchColon (canonicalOf h m s [e1, e2, e3]) =
      some (digitCharOf (h / 10), digitCharOf (h % 10), digitCharOf (m / 10),
        digitCharOf (m % 10), digitCharOf (s / 10), digitCharOf (s % 10),
        some (e1, e2, e3)) := by
  have hmatch := matchColonAt_canonical h m s hh hm hs e1 e2 e3 he1 he2 he3
  rw [canonicalOf_explicit] at hmatch ⊢
  simp only [searchColon, hmatch]

/-- Reading back a two-digit rendering. -/
theorem dv2_pad (n : ℕ) (hn : n < 100) :
    dv2 (digitCharOf (n / 10)) (digitCharOf (n % 10)) = n := by
  rw [dv2, dv_digitCharOf (by omega), dv_digitCharOf (by omega)]
  omega

/-- Parsing maps a canonical in-range string to itself (`parse_time_format_colon`). -/
theorem parse_colon_canonical (h m s : ℕ) (hh : h ≤ 23) (hm : m ≤ 59)
    (hs : s ≤ 59) (e1 e2 e3 : Char) (he1 : e1.isDigit = true)
    (he2 : e2.isDigit = true) (he3 : e3.isDigit = true) :
    parse_time_format_colon (canonicalOf h m s [e1, e2, e3]) =
      some (canonicalOf h m s [e1, e2, e3]) := by
  simp only [parse_time_format_colon,
    searchColon_canonical h m s (by omega) (by omega) (by omega) e1 e2 e3 he1 he2 he3]
  rw [dv2_pad h (by omega), dv2_pad m (by omega), dv2_pad s (by omega)]
  rw [if_pos ⟨hh, hm, hs⟩]

/-- Value of a two-digit rendering under digitsVal?. -/
theorem digitsVal?_pad2 (n : ℕ) (hn : n < 100) :
    digitsVal? (pad2 n) = some n := by
  simp only [digitsVal?, pad2]
  rw [if_pos]
  · simp only [List.foldl_cons, List.foldl_nil]
    rw [dv_digitCharOf (by omega), dv_digitCharOf (by omega)]
    congr 1
    omega
  · simp [isDigit_digitCharOf (by omega : n / 10 < 10),
      isDigit_digitCharOf (by omega : n % 10 < 10)]

/-- Value of a two-digit rendering under pyInt. -/
theorem pyInt_pad2 (n : ℕ) (hn : n < 100) : pyInt (pad2 n) = some (n : ℤ) := by
  have hd := digitCharOf_ne (by omega : n / 10 < 10)
  simp only [pad2, pyInt]
  rw [if_neg hd.2.2.1, if_neg hd.2.2.2, ← pad2]
  rw [digitsVal?_pad2 n hn]
  rfl

/-- Value of three digit characters under pyInt. -/
theorem pyInt_digits3 (e1 e2 e3 : Char) (he1 : e1.isDigit = true)
    (he2 : e2.isDigit = true) (he3 : e3.isDigit = true) :
    pyInt [e1, e2, e3] = some ((100 * dv e1 + 10 * dv e2 + dv e3 : ℕ) : ℤ) := by
  have hd := digit_ne e1 he1
  simp only [pyInt]
  rw [if_neg hd.2.2.1, if_neg hd.2.2.2]
  rw [show digitsVal? [e1, e2, e3] =
      some (100 * dv e1 + 10 * dv e2 + dv e3) from by
    simp only [digitsVal?]
    rw [if_pos (by simp [he1, he2, he3])]
    simp only [List.foldl_cons, List.foldl_nil]
    congr 1
    omega]
  rfl

/-- The characters of a two-digit rendering avoid a non-digit char. -/
theorem pad2_sepfree (n : ℕ) (hn : n < 100) (sep : Char)
    (hsep : sep = ':' ∨ sep = '.' ∨ sep = '+' ∨ sep = '-') :
    ∀ c ∈ pad2 n, c ≠ sep := by
  intro c hc
  have hd : c.isDigit = true := by
    rcases (by simpa [pad2] using hc : c = digitCharOf (n / 10) ∨
        c = digitCharOf (n % 10)) with rfl | rfl
    · exact isDigit_digitCharOf (by omega)
    · exact isDigit_digitCharOf (by omega)
  have := digit_ne c hd
  rcases hsep with rfl | rfl | rfl | rfl
  · exact this.1
  · exact this.2.1
  · exact this.2.2.1
  · exact this.2.2.2

/-- Conversion of a canonical string computes the claimed formula. -/
theorem parse_to_ms_canonical (h m s : ℕ) (hh : h < 100) (hm : m < 100)
    (hs : s < 100) (e1 e2 e3 : Char) (he1 : e1.isDigit = true)
    (he2 : e2.isDigit = true) (he3 : e3.isDigit = true) :
    parse_time_to_ms (canonicalOf h m s [e1, e2, e3]) =
      some (((h * 3600 + m * 60 + s) * 1000 +
        (100 * dv e1 + 10 * dv e2 + dv e3) : ℕ) : ℤ) := by
  have hA := pad2_sepfree h hh ':' (Or.inl rfl)
  have hBm := pad2_sepfree m hm ':' (Or.inl rfl)
  have hCs : ∀ c ∈ pad2 s ++ '.' :: [e1, e2, e3], c ≠ ':' := by
    intro c hc
    rcases List.mem_append.mp hc with hc | hc
    · exact pad2_sepfree s hs ':' (Or.inl rfl) c hc
    · rcases List.mem_cons.mp hc with rfl | hc
      · decide
      · simp only [List.mem_cons, List.not_mem_nil, or_false] at hc
        rcases hc with rfl | rfl | rfl
        · exact (digit_ne c he1).1
        · exact (digit_ne c he2).1
        · exact (digit_ne c he3).1
  have hsplit : pySplit ':' (canonicalOf h m s [e1, e2, e3]) =
      [pad2 h, pad2 m, pad2 s ++ '.' :: [e1, e2, e3]] := by
    show pySplit ':'
        (pad2 h ++ ':' :: (pad2 m ++ ':' :: (pad2 s ++ '.' :: [e1, e2, e3]))) = _
    rw [pySplit_sepfree_append ':' _ _ hA, pySplit_cons_sep,
      pySplit_sepfree_append ':' _ _ hBm, pySplit_cons_sep,
      pySplit_sepfree ':' _ hCs]
    simp
  have hdot : pySplit '.' (pad2 s ++ '.' :: [e1, e2, e3]) =
      [pad2 s, [e1, e2, e3]] := by
    have hmsfree : ∀ c ∈ [e1, e2, e3], c ≠ '.' := by
      intro c hc
      simp only [List.mem_cons, List.not_mem_nil, or_false] at hc
      rcases hc with rfl | rfl | rfl
      · exact (digit_ne c he1).2.1
      · exact (digit_ne c he2).2.1
      · exact (digit_ne c he3).2.1
    rw [pySplit_sepfree_append '.' _ _
        (pad2_sepfree s hs '.' (Or.inr (Or.inl rfl))),
      pySplit_cons_sep, pySplit_sepfree '.' _ hmsfree]
    simp
  simp only [parse_time_to_ms]
  rw [if_neg (by simp [canonicalOf_explicit])]
  rw [hsplit]
  rw [if_neg (by simp)]
  simp only [List.getD_cons_zero, List.getD_cons_succ]
  rw [pyInt_pad2 h hh, pyInt_pad2 m hm]
  rw [hdot]
  simp only [List.getD_cons_zero, List.getD_cons_succ]
  rw [pyInt_pad2 s hs]
  rw [if_pos (by simp)]
  rw [pyInt_digits3 e1 e2 e3 he1 he2 he3]
  congr 1

/-- A full colon match carries only digit characters in its millisecond
group. -/
theorem matchColonAt_ms_digits (cs : List Char)
    (d1 d2 d3 d4 d5 d6 e1 e2 e3 : Char)
    (h : matchColonAt cs = some (d1, d2, d3, d4, d5, d6, some (e1, e2, e3))) :
    e1.isDigit = true ∧ e2.isDigit = true ∧ e3.isDigit = true := by
  rcases cs with _ | ⟨a1, cs⟩; · cases h
  rcases cs with _ | ⟨a2, cs⟩; · cases h
  rcases cs with _ | ⟨a3, cs⟩; · cases h
  rcases cs with _ | ⟨a4, cs⟩; · cases h
  rcases cs with _ | ⟨a5, cs⟩; · cases h
  rcases cs with _ | ⟨a6, cs⟩; · cases h
  rcases cs with _ | ⟨a7, cs⟩; · cases h
  rcases cs with _ | ⟨a8, rest⟩; · cases h
  rcases rest with _ | ⟨b1, rest⟩
  · simp only [matchColonAt] at h
    split_ifs at h <;> simp at h
  rcases rest with _ | ⟨b2, rest⟩
  · simp only [matchColonAt] at h
    split_ifs at h <;> simp at h
  rcases rest with _ | ⟨b3, rest⟩
  · simp only [matchColonAt] at h
    split_ifs at h <;> simp at h
  rcases rest with _ | ⟨b4, rest2⟩
  · simp only [matchColonAt] at h
    split_ifs at h <;> simp at h
  simp only [matchColonAt] at h
  split_ifs at h with hcond hc2 hla
  · simp only [Option.some.injEq, Prod.mk.injEq] at h
    obtain ⟨-, -, -, -, -, -, hf1, hf2, hf3⟩ := h
    simp only [Bool.and_eq_true, decide_eq_true_eq] at hc2
    obtain ⟨⟨⟨⟨-, h1⟩, h2⟩, h3⟩, -⟩ := hc2
    exact ⟨hf1 ▸ h1, hf2 ▸ h2, hf3 ▸ h3⟩
  · simp at h

/-- The search only returns millisecond groups made of digits. -/
theorem searchColon_ms_digits (cs : List Char)
    (d1 d2 d3 d4 d5 d6 e1 e2 e3 : Char)
    (h : searchColon cs = some (d1, d2, d3, d4, d5, d6, some (e1, e2, e3))) :
    e1.isDigit = true ∧ e2.isDigit = true ∧ e3.isDigit = true := by
  induction cs with
  | nil => cases h
  | cons c rest ih =>
    simp only [searchColon] at h
    cases hm : matchColonAt (c :: rest) with
    | some g =>
      rw [hm] at h
      have hg : g = (d1, d2, d3, d4, d5, d6, some (e1, e2, e3)) :=
        Option.some.inj h
      rw [hg] at hm
      exact matchColonAt_ms_digits (c :: rest) _ _ _ _ _ _ _ _ _ hm
    | none =>
      rw [hm] at h
      exact ih h

/-- Every successful colon parse is a canonical in-range string. -/
theorem parse_colon_shape (cs out : List Char)
    (h : parse_time_format_colon cs = some out) :
    ∃ (h' m' s' : ℕ) (e1 e2 e3 : Char), h' ≤ 23 ∧ m' ≤ 59 ∧ s' ≤ 59 ∧
      e1.isDigit = true ∧ e2.isDigit = true ∧ e3.isDigit = true ∧
      out = canonicalOf h' m' s' [e1, e2, e3] := by
  simp only [parse_time_format_colon] at h
  cases hsc : searchColon cs with
  | none => simp only [hsc] at h; cases h
  | some g =>
    obtain ⟨d1, d2, d3, d4, d5, d6, msOpt⟩ := g
    simp only [hsc] at h
    split_ifs at h with hr
    · cases msOpt with
      | none =>
        exact ⟨_, _, _, '0', '0', '0', hr.1, hr.2.1, hr.2.2, by decide,
          by decide, by decide, (Option.some.inj h).symm⟩
      | some ms3 =>
        obtain ⟨e1, e2, e3⟩ := ms3
        obtain ⟨he1, he2, he3⟩ := searchColon_ms_digits cs _ _ _ _ _ _ _ _ _ hsc
        exact ⟨_, _, _, e1, e2, e3, hr.1, hr.2.1, hr.2.2, he1, he2, he3,
          (Option.some.inj h).symm⟩

/-- C8: for every valid colon-form input `"HH:MM:SS.mmm"` (fields in range, a
three-digit millisecond field), parsing the text and converting with
`to_milliseconds` yields exactly `((H*3600+M*60+S)*1000+ms)`; and the
canonical string of any parsed value re-parses to itself — hence to the
same millisecond count (round trip). -/
theorem C8_colon_roundtrip :
    (∀ (h m s : ℕ) (e1 e2 e3 : Char), h ≤ 23 → m ≤ 59 → s ≤ 59 →
       e1.isDigit = true → e2.isDigit = true → e3.isDigit = true →
       parse_time_format_colon (canonicalOf h m s [e1, e2, e3]) =
         some (canonicalOf h m s [e1, e2, e3]) ∧
       parse_time_to_ms (canonicalOf h m s [e1, e2, e3]) =
         some (((h * 3600 + m * 60 + s) * 1000 +
           (100 * dv e1 + 10 * dv e2 + dv e3) : ℕ) : ℤ)) ∧
    (∀ cs out : List Char, parse_time_format_colon cs = some out →
       parse_time_format_colon out = some out) := by
  constructor
  · intro h m s e1 e2 e3 hh hm hs he1 he2 he3
    exact ⟨parse_colon_canonical h m s hh hm hs e1 e2 e3 he1 he2 he3,
      parse_to_ms_canonical h m s (by omega) (by omega) (by omega)
        e1 e2 e3 he1 he2 he3⟩
  · intro cs out hp
    obtain ⟨h', m', s', e1, e2, e3, hh, hm, hs, he1, he2, he3, rfl⟩ :=
      parse_colon_shape cs out hp
    exact parse_colon_canonical h' m' s' hh hm hs e1 e2 e3 he1 he2 he3

/-- C8 witness: `"12:34:56.789"` parses to itself and converts to exactly
45296789 ms. -/
theorem C8_witness :
    parse_time_format_colon "12:34:56.789".toList =
      some "12:34:56.789".toList ∧
    parse_time_to_ms "12:34:56.789".toList = some 45296789 := by
  have h := C8_colon_roundtrip.1 12 34 56 '7' '8' '9' (by norm_num)
    (by norm_num) (by norm_num) (by decide) (by decide) (by decide)
  have hc : canonicalOf 12 34 56 ['7', '8', '9'] = "12:34:56.789".toList := by
    decide
  refine ⟨by rw [← hc]; exact h.1, ?_⟩
  rw [← hc, h.2]
  decide

end VLA
